import Mathlib

/-!
Shallow embedding of `src/docs/security/wireguard-example.rs`: an in-memory
datagram pump driving two WireGuard `Tunn` state machines, plus a minimal
IPv4/UDP packet builder with header checksum.

The `Tunn` protocol engine is an external collaborator (the `boringtun`
crate); the harness only calls its operations and switches on the tagged
`TunnResult`.  It is therefore modelled abstractly: an `Engine E` is any
state type `E` together with the three operations the harness invokes, each
returning a `TunnResult` and a successor state.  Byte buffers are modelled
as lists of naturals; a scratch output buffer is not modelled because every
result variant carries its produced bytes directly.
-/

/-- A byte buffer (`Vec<u8>` / `&[u8]`). -/
abbrev Bytes := List Nat

/-- A FIFO queue of datagrams (`VecDeque<Vec<u8>>`): the head is the front. -/
abbrev Queue := List Bytes

/-- The log of reported per-datagram errors: `eprintln!("{who} decap error: {e:?}")`
is modelled as appending the pair (peer identity, error detail). -/
abbrev ErrLog := List (String × Nat)

/-- The tagged result returned by every engine operation
(`boringtun::noise::TunnResult`).  Error details are abstracted to a `Nat`. -/
inductive TunnResult where
  | writeToNetwork (pkt : Bytes)
  | writeToTunnelV4 (inner : Bytes) (src : Nat)
  | writeToTunnelV6 (inner : Bytes) (src : Nat)
  | done
  | err (e : Nat)
deriving Repr, DecidableEq

/-- True exactly on the `WriteToNetwork` variant. -/
def TunnResult.isNet : TunnResult → Bool
  | .writeToNetwork _ => true
  | _ => false

/-- True exactly on the two `WriteToTunnel` (forward-to-interface) variants. -/
def TunnResult.isTunnel : TunnResult → Bool
  | .writeToTunnelV4 _ _ => true
  | .writeToTunnelV6 _ _ => true
  | _ => false

/-- The variant name, as `{:?}` would print it (up to the payload). -/
def TunnResult.tagName : TunnResult → String
  | .writeToNetwork _ => "WriteToNetwork"
  | .writeToTunnelV4 _ _ => "WriteToTunnelV4"
  | .writeToTunnelV6 _ _ => "WriteToTunnelV6"
  | .done => "Done"
  | .err _ => "Err"

/-- The opaque per-peer protocol state machine (`boringtun::noise::Tunn`),
abstracted to the three operations the harness calls.  `decapsulate` takes the
always-absent sender address, the inbound datagram (possibly empty), and
returns the tagged result together with the successor engine state. -/
structure Engine (E : Type) where
  decapsulate : E → Option Nat → Bytes → TunnResult × E
  encapsulate : E → Bytes → TunnResult × E
  format_handshake_initiation : E → TunnResult × E

/-- The inner `loop` of `process_incoming`: starting from the result `res` of
the previous `decapsulate` call, keep handling results.  On `WriteToNetwork`
the produced bytes are pushed onto `out` and `decapsulate` is re-invoked on
the same engine with an empty datagram; the other four variants end the loop.
The Rust loop is unbounded, so it is embedded with explicit `fuel`:
`none` means the loop did not finish within `fuel` re-invocations. -/
def decapLoop (eng : Engine E) (who : String) :
    Nat → E → TunnResult → Queue → Queue → ErrLog →
    Option (E × Queue × Queue × ErrLog)
  | fuel, e, .writeToNetwork pkt, out, tun, errs =>
    match fuel with
    | 0 => none
    | f + 1 =>
      decapLoop eng who f (eng.decapsulate e none []).2 (eng.decapsulate e none []).1
        (out ++ [pkt]) tun errs
  | _, e, .writeToTunnelV4 inner _, out, tun, errs => some (e, out, tun ++ [inner], errs)
  | _, e, .writeToTunnelV6 inner _, out, tun, errs => some (e, out, tun ++ [inner], errs)
  | _, e, .done, out, tun, errs => some (e, out, tun, errs)
  | _, e, .err er, out, tun, errs => some (e, out, tun, errs ++ [(who, er)])

/-- The single-peer drain `process_incoming`: pop every datagram from the inbound queue, feed it to
the engine's `decapsulate`, and run `decapLoop` on the result.  The final
`Bool` is `did_any`; the threaded `did` argument starts `false` at every call
site, mirroring `let mut did_any = false`. -/
def process_incoming (eng : Engine E) (fuel : Nat) (who : String) :
    E → Queue → Queue → Queue → ErrLog → Bool →
    Option (E × Queue × Queue × ErrLog × Bool)
  | e, [], out, tun, errs, did => some (e, out, tun, errs, did)
  | e, dg :: rest, out, tun, errs, _ =>
    match decapLoop eng who fuel (eng.decapsulate e none dg).2
        (eng.decapsulate e none dg).1 out tun errs with
    | none => none
    | some (e2, out2, tun2, errs2) =>
      process_incoming eng fuel who e2 rest out2 tun2 errs2 true

/-- The datagram pump `pump`: repeat the pair of single-peer drains (A first, then B) until one
full pass does no work for either peer.  State is
(engine A, engine B, a2b_net, b2a_net, a_tun, b_tun, error log); after A's
drain `b2a_net` is empty, and after B's drain (whose outbound queue is that
emptied `b2a_net`) `a2b_net` is empty.  The Rust loop is unbounded, so the
number of passes is bounded by explicit fuel `passes`. -/
def pump (engA engB : Engine E) (fuel : Nat) :
    Nat → E → E → Queue → Queue → Queue → Queue → ErrLog →
    Option (E × E × Queue × Queue × Queue × Queue × ErrLog)
  | 0, _, _, _, _, _, _, _ => none
  | passes + 1, eA, eB, a2b, b2a, aTun, bTun, errs =>
    match process_incoming engA fuel "A" eA b2a a2b aTun errs false with
    | none => none
    | some (eA2, a2b2, aTun2, errs2, p1) =>
      match process_incoming engB fuel "B" eB a2b2 [] bTun errs2 false with
      | none => none
      | some (eB2, b2a2, bTun2, errs3, p2) =>
        if p1 || p2 then
          pump engA engB fuel passes eA2 eB2 [] b2a2 aTun2 bTun2 errs3
        else
          some (eA2, eB2, [], b2a2, aTun2, bTun2, errs3)

/-- The handshake kickoff in `main`:
`if let TunnResult::WriteToNetwork(pkt) = a.format_handshake_initiation(..)`
pushes the packet onto the A-to-B wire queue; any other result silently does
nothing (the engine state still advances). -/
def kickoffHandshake (eng : Engine E) (e : E) (q : Queue) : E × Queue :=
  match eng.format_handshake_initiation e with
  | (.writeToNetwork pkt, e2) => (e2, q ++ [pkt])
  | (_, e2) => (e2, q)

/-- The test-payload injection in `main`: `a.encapsulate(&inner, &mut enc_buf)`
must yield `WriteToNetwork`, which is pushed onto the outbound wire queue;
any other result panics with `"unexpected encapsulate result: {:?}"`, modelled
as an `Except.error` carrying the message with the variant name. -/
def injectPayload (eng : Engine E) (e : E) (inner : Bytes) (q : Queue) :
    Except String (E × Queue) :=
  match eng.encapsulate e inner with
  | (.writeToNetwork wg, e2) => .ok (e2, q ++ [wg])
  | (other, _) => .error ("unexpected encapsulate result: " ++ other.tagName)

/-- An IPv4 address (`std::net::Ipv4Addr`), as its four octets. -/
structure Ipv4Addr where
  o1 : Nat
  o2 : Nat
  o3 : Nat
  o4 : Nat
deriving Repr, DecidableEq

/-- The four octets, as `Ipv4Addr::octets` returns them. -/
def Ipv4Addr.octets (a : Ipv4Addr) : Bytes := [a.o1, a.o2, a.o3, a.o4]

/-- Big-endian encoding `(n as u16).to_be_bytes()`: the two big-endian bytes of `n` truncated to
16 bits (`n / 256 % 256` is the high byte of `n % 65536`). -/
def toBe16 (n : Nat) : Bytes := [n / 256 % 256, n % 256]

/-- The carry-folding `while (sum >> 16) != 0` loop of `ipv4_checksum`,
with explicit fuel.  Each iteration replaces `sum` by
`(sum & 0xFFFF) + (sum >> 16)`, which strictly decreases `sum` while it is
at least `2^16`, so `fuel := sum` always suffices (see `foldCarries`). -/
def foldCarriesAux : Nat → Nat → Nat
  | 0, s => s
  | fuel + 1, s => if s < 65536 then s else foldCarriesAux fuel (s % 65536 + s / 65536)

/-- The carry fold run to completion: fuel `s` is enough because the value
strictly decreases at every iteration that runs. -/
def foldCarries (s : Nat) : Nat := foldCarriesAux s s

/-- The header checksum `ipv4_checksum`: sum the ten big-endian 16-bit words of the 20-byte
header, skipping the checksum word (`i == 10`, i.e. word index 5), with
`u32` wrapping addition; fold carries; one's-complement the low 16 bits
(`!(sum as u16)` is `65535 - sum % 65536`, and the folded sum is below
`65536`). -/
def ipv4_checksum (hdr : Bytes) : Nat :=
  let sum := (List.range 10).foldl (fun s j =>
    if j = 5 then s
    else (s + (256 * hdr.getD (2 * j) 0 + hdr.getD (2 * j + 1) 0)) % 4294967296) 0
  65535 - foldCarries sum

/-- The packet builder `build_ipv4_udp`: 20-byte IPv4 header (version 4, IHL 5, DF flag, TTL 64,
protocol 17, checksum computed over the zero-checksum header and patched in),
8-byte UDP header (length `8 + |payload|`, checksum 0), then the payload. -/
def build_ipv4_udp (src dst : Ipv4Addr) (src_port dst_port : Nat)
    (payload : Bytes) : Bytes :=
  let total_len := 20 + 8 + payload.length
  let ipZero : Bytes :=
    [0x45, 0] ++ toBe16 total_len ++ [0, 0, 0x40, 0, 64, 17, 0, 0] ++
      src.octets ++ dst.octets
  let ck := ipv4_checksum ipZero
  let ip : Bytes :=
    [0x45, 0] ++ toBe16 total_len ++ [0, 0, 0x40, 0, 64, 17] ++ toBe16 ck ++
      src.octets ++ dst.octets
  let udp : Bytes :=
    toBe16 src_port ++ toBe16 dst_port ++ toBe16 (8 + payload.length) ++ [0, 0]
  ip ++ udp ++ payload

/-- Writing the computed checksum back into bytes 10–11 of a header
(`ip[10..12].copy_from_slice(&cksum.to_be_bytes())`). -/
def setChecksum (hdr : Bytes) (ck : Nat) : Bytes :=
  hdr.take 10 ++ toBe16 ck ++ hdr.drop 12

/-- Modelled from the spec: the *validation* form of the header checksum
(§8 "Checksum is self-consistent"), which sums all ten words *including* the
checksum field and folds carries.  The repository has no validation routine;
this definition follows the spec's words. -/
def checksumValidationSum (hdr : Bytes) : Nat :=
  foldCarries ((List.range 10).foldl (fun s j =>
    (s + (256 * hdr.getD (2 * j) 0 + hdr.getD (2 * j + 1) 0)) % 4294967296) 0)

/-- Modelled from the spec: the state-machine summary of one decapsulate
invocation chain (§4.2).  `SpecChain eng who e res out tun errs fin` holds
when, starting from result `res` with engine state `e` and queues/log
`out`, `tun`, `errs`, the chain ends in the final configuration `fin`:
`Forward-to-network` appends to the wire and re-invokes with an empty
datagram; the two `Forward-to-interface` variants append to the interface
queue and stop; `Done` stops; `Error` records (peer, detail) and stops. -/
inductive SpecChain (eng : Engine E) (who : String) :
    E → TunnResult → Queue → Queue → ErrLog →
    E × Queue × Queue × ErrLog → Prop
  | network {e pkt out tun errs fin} :
      SpecChain eng who (eng.decapsulate e none []).2 (eng.decapsulate e none []).1
        (out ++ [pkt]) tun errs fin →
      SpecChain eng who e (.writeToNetwork pkt) out tun errs fin
  | tunnelV4 {e inner s out tun errs} :
      SpecChain eng who e (.writeToTunnelV4 inner s) out tun errs
        (e, out, tun ++ [inner], errs)
  | tunnelV6 {e inner s out tun errs} :
      SpecChain eng who e (.writeToTunnelV6 inner s) out tun errs
        (e, out, tun ++ [inner], errs)
  | finished {e out tun errs} :
      SpecChain eng who e .done out tun errs (e, out, tun, errs)
  | failed {e er out tun errs} :
      SpecChain eng who e (.err er) out tun errs (e, out, tun, errs ++ [(who, er)])

/-- An engine that always answers `Done`: used to instantiate hypotheses of
the general theorems at concrete inputs. -/
def doneEngine : Engine Unit :=
  ⟨fun _ _ _ => (.done, ()), fun _ _ => (.done, ()), fun _ => (.done, ())⟩

/-- An engine that always fails decapsulation with error detail `7`. -/
def errEngine : Engine Unit :=
  ⟨fun _ _ _ => (.err 7, ()), fun _ _ => (.done, ()), fun _ => (.done, ())⟩

/-- An engine that answers every non-empty datagram with a single
`WriteToNetwork` and every empty (follow-up) datagram with `Done`: each
empty-datagram chain terminates immediately, yet two such peers bounce one
datagram back and forth forever. -/
def pingEngine : Engine Unit :=
  ⟨fun _ _ dg => if dg.isEmpty then (.done, ()) else (.writeToNetwork [0], ()),
   fun _ _ => (.done, ()), fun _ => (.done, ())⟩

/-! ## Theorems -/

section Claims

variable {E : Type}

/-- C1: the result-handling sub-loop of `process_incoming` terminates with a
final configuration exactly when the spec's chain state machine does: every
`WriteToNetwork` result appends the produced bytes to the outbound wire queue
and re-invokes `decapsulate` on the same engine with an empty datagram, and
only `WriteToTunnelV4`/`WriteToTunnelV6`, `Done`, or `Err` end the chain. -/
theorem decapLoop_matches_specChain (eng : Engine E) (who : String)
    (e : E) (res : TunnResult) (out tun : Queue) (errs : ErrLog)
    (fin : E × Queue × Queue × ErrLog) :
    (∃ fuel, decapLoop eng who fuel e res out tun errs = some fin) ↔
      SpecChain eng who e res out tun errs fin := by
  constructor
  · rintro ⟨fuel, h⟩
    induction fuel generalizing e res out tun errs with
    | zero =>
      cases res with
      | writeToNetwork pkt => simp [decapLoop] at h
      | writeToTunnelV4 inner s =>
        simp [decapLoop] at h
        rw [← h]
        exact SpecChain.tunnelV4
      | writeToTunnelV6 inner s =>
        simp [decapLoop] at h
        rw [← h]
        exact SpecChain.tunnelV6
      | done =>
        simp [decapLoop] at h
        rw [← h]
        exact SpecChain.finished
      | err er =>
        simp [decapLoop] at h
        rw [← h]
        exact SpecChain.failed
    | succ f ih =>
      cases res with
      | writeToNetwork pkt =>
        simp only [decapLoop] at h
        exact SpecChain.network (ih _ _ _ _ _ h)
      | writeToTunnelV4 inner s =>
        simp [decapLoop] at h
        rw [← h]
        exact SpecChain.tunnelV4
      | writeToTunnelV6 inner s =>
        simp [decapLoop] at h
        rw [← h]
        exact SpecChain.tunnelV6
      | done =>
        simp [decapLoop] at h
        rw [← h]
        exact SpecChain.finished
      | err er =>
        simp [decapLoop] at h
        rw [← h]
        exact SpecChain.failed
  · intro h
    induction h with
    | network _ ih =>
      obtain ⟨f, hf⟩ := ih
      exact ⟨f + 1, by simpa [decapLoop] using hf⟩
    | tunnelV4 => exact ⟨0, rfl⟩
    | tunnelV6 => exact ⟨0, rfl⟩
    | finished => exact ⟨0, rfl⟩
    | failed => exact ⟨0, rfl⟩

/-- The outbound wire queue only grows during the result-handling sub-loop. -/
theorem decapLoop_out_mono (eng : Engine E) (who : String) (fuel : Nat)
    (e : E) (res : TunnResult) (out tun : Queue) (errs : ErrLog)
    (e2 : E) (out2 tun2 : Queue) (errs2 : ErrLog)
    (h : decapLoop eng who fuel e res out tun errs = some (e2, out2, tun2, errs2)) :
    ∃ ext, out2 = out ++ ext := by
  induction fuel generalizing e res out tun errs with
  | zero =>
    cases res with
    | writeToNetwork pkt => simp [decapLoop] at h
    | writeToTunnelV4 inner s => simp [decapLoop] at h; exact ⟨[], by simp [h.2.1]⟩
    | writeToTunnelV6 inner s => simp [decapLoop] at h; exact ⟨[], by simp [h.2.1]⟩
    | done => simp [decapLoop] at h; exact ⟨[], by simp [h.2.1]⟩
    | err er => simp [decapLoop] at h; exact ⟨[], by simp [h.2.1]⟩
  | succ f ih =>
    cases res with
    | writeToNetwork pkt =>
      simp only [decapLoop] at h
      obtain ⟨ext, hext⟩ := ih _ _ _ _ _ h
      exact ⟨[pkt] ++ ext, by simp [hext]⟩
    | writeToTunnelV4 inner s => simp [decapLoop] at h; exact ⟨[], by simp [h.2.1]⟩
    | writeToTunnelV6 inner s => simp [decapLoop] at h; exact ⟨[], by simp [h.2.1]⟩
    | done => simp [decapLoop] at h; exact ⟨[], by simp [h.2.1]⟩
    | err er => simp [decapLoop] at h; exact ⟨[], by simp [h.2.1]⟩

/-- The outbound wire queue only grows during a drain. -/
theorem process_incoming_out_mono (eng : Engine E) (fuel : Nat) (who : String)
    (e : E) (inc out tun : Queue) (errs : ErrLog) (did : Bool)
    (e2 : E) (out2 tun2 : Queue) (errs2 : ErrLog) (did2 : Bool)
    (h : process_incoming eng fuel who e inc out tun errs did =
      some (e2, out2, tun2, errs2, did2)) :
    ∃ ext, out2 = out ++ ext := by
  induction inc generalizing e out tun errs did with
  | nil =>
    simp [process_incoming] at h
    exact ⟨[], by simp [h.2.1]⟩
  | cons dg rest ih =>
    simp only [process_incoming] at h
    cases hdl : decapLoop eng who fuel (eng.decapsulate e none dg).2
        (eng.decapsulate e none dg).1 out tun errs with
    | none => rw [hdl] at h; simp at h
    | some r =>
      obtain ⟨e1, out1, tun1, errs1⟩ := r
      rw [hdl] at h
      simp only at h
      obtain ⟨ext1, h1⟩ := decapLoop_out_mono eng who fuel _ _ _ _ _ _ _ _ _ hdl
      obtain ⟨ext2, h2⟩ := ih _ _ _ _ _ h
      exact ⟨ext1 ++ ext2, by simp [h2, h1]⟩

/-- The flag `did_any` is the disjunction of the incoming flag and queue non-emptiness. -/
theorem process_incoming_did_eq (eng : Engine E) (fuel : Nat) (who : String)
    (e : E) (inc out tun : Queue) (errs : ErrLog) (did : Bool)
    (e2 : E) (out2 tun2 : Queue) (errs2 : ErrLog) (did2 : Bool)
    (h : process_incoming eng fuel who e inc out tun errs did =
      some (e2, out2, tun2, errs2, did2)) :
    did2 = (did || !inc.isEmpty) := by
  induction inc generalizing e out tun errs did with
  | nil =>
    simp [process_incoming] at h
    simp [h.2.2.2.2]
  | cons dg rest ih =>
    simp only [process_incoming] at h
    cases hdl : decapLoop eng who fuel (eng.decapsulate e none dg).2
        (eng.decapsulate e none dg).1 out tun errs with
    | none => rw [hdl] at h; simp at h
    | some r =>
      obtain ⟨e1, out1, tun1, errs1⟩ := r
      rw [hdl] at h
      simp only at h
      simp [ih _ _ _ _ _ h]

/-- A drain of an empty inbound queue changes nothing. -/
theorem process_incoming_nil (eng : Engine E) (fuel : Nat) (who : String)
    (e : E) (out tun : Queue) (errs : ErrLog) (did : Bool) :
    process_incoming eng fuel who e [] out tun errs did =
      some (e, out, tun, errs, did) := rfl

/-- C3: for every engine and all initial queues, `process_incoming` reports
`did_work = true` exactly when its inbound wire queue was non-empty at entry,
whatever tagged results the engine produces; and the datagrams it produces
are appended to the outbound queue (the inbound queue being drained never
receives them). -/
theorem process_incoming_did_work (eng : Engine E) (fuel : Nat) (who : String)
    (e : E) (inc out tun : Queue) (errs : ErrLog)
    (e2 : E) (out2 tun2 : Queue) (errs2 : ErrLog) (did : Bool)
    (h : process_incoming eng fuel who e inc out tun errs false =
      some (e2, out2, tun2, errs2, did)) :
    (did = true ↔ inc ≠ []) ∧ ∃ ext, out2 = out ++ ext := by
  refine ⟨?_, process_incoming_out_mono eng fuel who e inc out tun errs false
    e2 out2 tun2 errs2 did h⟩
  have hd := process_incoming_did_eq eng fuel who e inc out tun errs false
    e2 out2 tun2 errs2 did h
  cases inc <;> simp_all

/-- Witness for C3 at a concrete engine and queue. -/
theorem process_incoming_did_work_witness :
    ((true = true ↔ ([[1]] : Queue) ≠ []) ∧ ∃ ext, ([] : Queue) = [] ++ ext) :=
  process_incoming_did_work doneEngine 1 "A" () [[1]] [] [] [] () [] [] [] true rfl

/-- C4: when `decapsulate` rejects a datagram with an engine error, the drain
records (peer identity, error detail), abandons that datagram without a
retry, and carries on with the rest of the queue exactly as if it had been
called on the remaining datagrams — the error never escapes the drain. -/
theorem process_incoming_error_contained (eng : Engine E) (fuel : Nat)
    (who : String) (e e1 : E) (dg : Bytes) (er : Nat) (rest out tun : Queue)
    (errs : ErrLog)
    (h : eng.decapsulate e none dg = (.err er, e1)) :
    process_incoming eng fuel who e (dg :: rest) out tun errs false =
      process_incoming eng fuel who e1 rest out tun (errs ++ [(who, er)]) true := by
  simp [process_incoming, h, decapLoop]

/-- Witness for C4 at a concrete always-failing engine. -/
theorem process_incoming_error_contained_witness :
    process_incoming errEngine 1 "A" () [[5]] [] [] [] false =
      process_incoming errEngine 1 "A" () [] [] [] [("A", 7)] true :=
  process_incoming_error_contained errEngine 1 "A" () () [5] 7 [] [] [] [] rfl

/-- C5: injecting the test payload appends the engine's `WriteToNetwork`
output to the peer's outbound wire queue, and every other outcome aborts the
scenario with a diagnostic naming the unexpected outcome tag. -/
theorem injectPayload_outcomes (eng : Engine E) (e e2 : E) (inner : Bytes)
    (q : Queue) (r : TunnResult)
    (h : eng.encapsulate e inner = (r, e2)) :
    (∀ wg, r = .writeToNetwork wg →
      injectPayload eng e inner q = .ok (e2, q ++ [wg])) ∧
    ((∀ wg, r ≠ .writeToNetwork wg) →
      injectPayload eng e inner q =
        .error ("unexpected encapsulate result: " ++ r.tagName)) := by
  constructor
  · intro wg hw
    subst hw
    simp [injectPayload, h]
  · intro hr
    cases r with
    | writeToNetwork p => exact absurd rfl (hr p)
    | writeToTunnelV4 inner s => simp [injectPayload, h, TunnResult.tagName]
    | writeToTunnelV6 inner s => simp [injectPayload, h, TunnResult.tagName]
    | done => simp [injectPayload, h, TunnResult.tagName]
    | err er => simp [injectPayload, h, TunnResult.tagName]

/-- Witness for C5: a `Done` outcome aborts with the tag in the diagnostic. -/
theorem injectPayload_outcomes_witness :
    injectPayload doneEngine () [1] [] =
      .error ("unexpected encapsulate result: " ++ "Done") :=
  (injectPayload_outcomes doneEngine () () [1] [] .done rfl).2
    (fun _ h => TunnResult.noConfusion h)

/-- C9: if the initial handshake-initiation call returns anything other than
`WriteToNetwork`, nothing is pushed onto the A-to-B wire queue and the
scenario just proceeds: `kickoffHandshake` returns normally (its type has no
error outcome) with the queue unchanged, reporting nothing. -/
theorem kickoff_silent_on_non_network (eng : Engine E) (e e2 : E)
    (r : TunnResult) (q : Queue)
    (h : eng.format_handshake_initiation e = (r, e2))
    (hr : ∀ p, r ≠ .writeToNetwork p) :
    kickoffHandshake eng e q = (e2, q) := by
  cases r with
  | writeToNetwork p => exact absurd rfl (hr p)
  | writeToTunnelV4 inner s => simp [kickoffHandshake, h]
  | writeToTunnelV6 inner s => simp [kickoffHandshake, h]
  | done => simp [kickoffHandshake, h]
  | err er => simp [kickoffHandshake, h]

/-- Witness for C9 at a concrete engine whose initiation answers `Done`. -/
theorem kickoff_silent_on_non_network_witness :
    kickoffHandshake doneEngine () [] = ((), []) :=
  kickoff_silent_on_non_network doneEngine () () .done [] rfl
    (fun _ h => TunnResult.noConfusion h)

/-- The interface queue only grows during the result-handling sub-loop. -/
theorem decapLoop_tun_mono (eng : Engine E) (who : String) (fuel : Nat)
    (e : E) (res : TunnResult) (out tun : Queue) (errs : ErrLog)
    (e2 : E) (out2 tun2 : Queue) (errs2 : ErrLog)
    (h : decapLoop eng who fuel e res out tun errs = some (e2, out2, tun2, errs2)) :
    ∃ ext, tun2 = tun ++ ext := by
  induction fuel generalizing e res out tun errs with
  | zero =>
    cases res with
    | writeToNetwork pkt => simp [decapLoop] at h
    | writeToTunnelV4 inner s => simp [decapLoop] at h; exact ⟨[inner], by simp [h.2.2.1]⟩
    | writeToTunnelV6 inner s => simp [decapLoop] at h; exact ⟨[inner], by simp [h.2.2.1]⟩
    | done => simp [decapLoop] at h; exact ⟨[], by simp [h.2.2.1]⟩
    | err er => simp [decapLoop] at h; exact ⟨[], by simp [h.2.2.1]⟩
  | succ f ih =>
    cases res with
    | writeToNetwork pkt =>
      simp only [decapLoop] at h
      exact ih _ _ _ _ _ h
    | writeToTunnelV4 inner s => simp [decapLoop] at h; exact ⟨[inner], by simp [h.2.2.1]⟩
    | writeToTunnelV6 inner s => simp [decapLoop] at h; exact ⟨[inner], by simp [h.2.2.1]⟩
    | done => simp [decapLoop] at h; exact ⟨[], by simp [h.2.2.1]⟩
    | err er => simp [decapLoop] at h; exact ⟨[], by simp [h.2.2.1]⟩

/-- If the engine never answers a `WriteToTunnel` variant and the current
result is not one either, the sub-loop leaves the interface queue unchanged. -/
theorem decapLoop_tun_eq (eng : Engine E) (who : String) (fuel : Nat)
    (e : E) (res : TunnResult) (out tun : Queue) (errs : ErrLog)
    (e2 : E) (out2 tun2 : Queue) (errs2 : ErrLog)
    (hno : ∀ e d, ((eng.decapsulate e none d).1).isTunnel = false)
    (hres : res.isTunnel = false)
    (h : decapLoop eng who fuel e res out tun errs = some (e2, out2, tun2, errs2)) :
    tun2 = tun := by
  induction fuel generalizing e res out tun errs with
  | zero =>
    cases res with
    | writeToNetwork pkt => simp [decapLoop] at h
    | writeToTunnelV4 inner s => simp [TunnResult.isTunnel] at hres
    | writeToTunnelV6 inner s => simp [TunnResult.isTunnel] at hres
    | done => simp [decapLoop] at h; simp [h.2.2.1]
    | err er => simp [decapLoop] at h; simp [h.2.2.1]
  | succ f ih =>
    cases res with
    | writeToNetwork pkt =>
      simp only [decapLoop] at h
      exact ih _ _ _ _ _ (hno e []) h
    | writeToTunnelV4 inner s => simp [TunnResult.isTunnel] at hres
    | writeToTunnelV6 inner s => simp [TunnResult.isTunnel] at hres
    | done => simp [decapLoop] at h; simp [h.2.2.1]
    | err er => simp [decapLoop] at h; simp [h.2.2.1]

/-- The interface queue only grows during a drain. -/
theorem process_incoming_tun_mono (eng : Engine E) (fuel : Nat) (who : String)
    (e : E) (inc out tun : Queue) (errs : ErrLog) (did : Bool)
    (e2 : E) (out2 tun2 : Queue) (errs2 : ErrLog) (did2 : Bool)
    (h : process_incoming eng fuel who e inc out tun errs did =
      some (e2, out2, tun2, errs2, did2)) :
    ∃ ext, tun2 = tun ++ ext := by
  induction inc generalizing e out tun errs did with
  | nil =>
    simp [process_incoming] at h
    exact ⟨[], by simp [h.2.2.1]⟩
  | cons dg rest ih =>
    simp only [process_incoming] at h
    cases hdl : decapLoop eng who fuel (eng.decapsulate e none dg).2
        (eng.decapsulate e none dg).1 out tun errs with
    | none => rw [hdl] at h; simp at h
    | some r =>
      obtain ⟨e1, out1, tun1, errs1⟩ := r
      rw [hdl] at h
      simp only at h
      obtain ⟨ext1, h1⟩ := decapLoop_tun_mono eng who fuel _ _ _ _ _ _ _ _ _ hdl
      obtain ⟨ext2, h2⟩ := ih _ _ _ _ _ h
      exact ⟨ext1 ++ ext2, by simp [h2, h1]⟩

/-- With an engine that never answers `WriteToTunnel`, a drain leaves the
interface queue unchanged. -/
theorem process_incoming_tun_eq (eng : Engine E) (fuel : Nat) (who : String)
    (e : E) (inc out tun : Queue) (errs : ErrLog) (did : Bool)
    (e2 : E) (out2 tun2 : Queue) (errs2 : ErrLog) (did2 : Bool)
    (hno : ∀ e d, ((eng.decapsulate e none d).1).isTunnel = false)
    (h : process_incoming eng fuel who e inc out tun errs did =
      some (e2, out2, tun2, errs2, did2)) :
    tun2 = tun := by
  induction inc generalizing e out tun errs did with
  | nil =>
    simp [process_incoming] at h
    simp [h.2.2.1]
  | cons dg rest ih =>
    simp only [process_incoming] at h
    cases hdl : decapLoop eng who fuel (eng.decapsulate e none dg).2
        (eng.decapsulate e none dg).1 out tun errs with
    | none => rw [hdl] at h; simp at h
    | some r =>
      obtain ⟨e1, out1, tun1, errs1⟩ := r
      rw [hdl] at h
      simp only at h
      have h1 := decapLoop_tun_eq eng who fuel _ _ _ _ _ _ _ _ _ hno (hno e dg) hdl
      rw [ih _ _ _ _ _ h, h1]

/-- Both interface queues only grow across a whole pump run. -/
theorem pump_tun_mono (engA engB : Engine E) (fuel passes : Nat)
    (eA eB : E) (a2b b2a aT bT : Queue) (errs : ErrLog)
    (eA2 eB2 : E) (w1 w2 aT2 bT2 : Queue) (errs2 : ErrLog)
    (h : pump engA engB fuel passes eA eB a2b b2a aT bT errs =
      some (eA2, eB2, w1, w2, aT2, bT2, errs2)) :
    (∃ xa, aT2 = aT ++ xa) ∧ (∃ xb, bT2 = bT ++ xb) := by
  induction passes generalizing eA eB a2b b2a aT bT errs with
  | zero => simp [pump] at h
  | succ n ih =>
    simp only [pump] at h
    cases hA : process_incoming engA fuel "A" eA b2a a2b aT errs false with
    | none => rw [hA] at h; simp at h
    | some rA =>
      obtain ⟨eA1, a2b1, aT1, errs1, p1⟩ := rA
      rw [hA] at h
      simp only at h
      cases hB : process_incoming engB fuel "B" eB a2b1 [] bT errs1 false with
      | none => rw [hB] at h; simp at h
      | some rB =>
        obtain ⟨eB1, b2a1, bT1, errs4, p2⟩ := rB
        rw [hB] at h
        simp only at h
        obtain ⟨xa1, hxa1⟩ := process_incoming_tun_mono engA fuel "A"
          _ _ _ _ _ _ _ _ _ _ _ hA
        obtain ⟨xb1, hxb1⟩ := process_incoming_tun_mono engB fuel "B"
          _ _ _ _ _ _ _ _ _ _ _ hB
        cases hp : p1 || p2 with
        | true =>
          rw [hp] at h
          simp only [if_pos rfl] at h
          obtain ⟨⟨xa2, hxa2⟩, ⟨xb2, hxb2⟩⟩ := ih _ _ _ _ _ _ _ h
          exact ⟨⟨xa1 ++ xa2, by simp [hxa2, hxa1]⟩, ⟨xb1 ++ xb2, by simp [hxb2, hxb1]⟩⟩
        | false =>
          rw [hp] at h
          simp only [Bool.false_eq_true, if_false] at h
          obtain ⟨rfl, rfl, rfl, rfl, rfl, rfl, rfl⟩ :=
            Prod.mk.injEq .. ▸ (Option.some.injEq .. ▸ h : _)
          exact ⟨⟨xa1, hxa1⟩, ⟨xb1, hxb1⟩⟩

/-- With engines that never answer `WriteToTunnel`, a pump run leaves both
interface queues unchanged. -/
theorem pump_tun_eq (engA engB : Engine E) (fuel passes : Nat)
    (eA eB : E) (a2b b2a aT bT : Queue) (errs : ErrLog)
    (eA2 eB2 : E) (w1 w2 aT2 bT2 : Queue) (errs2 : ErrLog)
    (hnoA : ∀ e d, ((engA.decapsulate e none d).1).isTunnel = false)
    (hnoB : ∀ e d, ((engB.decapsulate e none d).1).isTunnel = false)
    (h : pump engA engB fuel passes eA eB a2b b2a aT bT errs =
      some (eA2, eB2, w1, w2, aT2, bT2, errs2)) :
    aT2 = aT ∧ bT2 = bT := by
  induction passes generalizing eA eB a2b b2a aT bT errs with
  | zero => simp [pump] at h
  | succ n ih =>
    simp only [pump] at h
    cases hA : process_incoming engA fuel "A" eA b2a a2b aT errs false with
    | none => rw [hA] at h; simp at h
    | some rA =>
      obtain ⟨eA1, a2b1, aT1, errs1, p1⟩ := rA
      rw [hA] at h
      simp only at h
      cases hB : process_incoming engB fuel "B" eB a2b1 [] bT errs1 false with
      | none => rw [hB] at h; simp at h
      | some rB =>
        obtain ⟨eB1, b2a1, bT1, errs4, p2⟩ := rB
        rw [hB] at h
        simp only at h
        have hxa1 := process_incoming_tun_eq engA fuel "A"
          _ _ _ _ _ _ _ _ _ _ _ hnoA hA
        have hxb1 := process_incoming_tun_eq engB fuel "B"
          _ _ _ _ _ _ _ _ _ _ _ hnoB hB
        cases hp : p1 || p2 with
        | true =>
          rw [hp] at h
          simp only [if_pos rfl] at h
          obtain ⟨h1, h2⟩ := ih _ _ _ _ _ _ _ h
          exact ⟨by rw [h1, hxa1], by rw [h2, hxb1]⟩
        | false =>
          rw [hp] at h
          simp only [Bool.false_eq_true, if_false] at h
          obtain ⟨rfl, rfl, rfl, rfl, rfl, rfl, rfl⟩ :=
            Prod.mk.injEq .. ▸ (Option.some.injEq .. ▸ h : _)
          exact ⟨hxa1, hxb1⟩

/-- C8: across any pump run, each peer's interface queue is append-only — the
prior contents are an unchanged prefix of the new contents — and only the
`WriteToTunnel` (forward-to-interface) results ever add entries: engines that
never produce one leave both interface queues exactly as they were. -/
theorem pump_interface_append_only (engA engB : Engine E) (fuel passes : Nat)
    (eA eB : E) (a2b b2a aT bT : Queue) (errs : ErrLog)
    (eA2 eB2 : E) (w1 w2 aT2 bT2 : Queue) (errs2 : ErrLog)
    (h : pump engA engB fuel passes eA eB a2b b2a aT bT errs =
      some (eA2, eB2, w1, w2, aT2, bT2, errs2)) :
    ((∃ xa, aT2 = aT ++ xa) ∧ (∃ xb, bT2 = bT ++ xb)) ∧
    ((∀ e d, ((engA.decapsulate e none d).1).isTunnel = false) →
     (∀ e d, ((engB.decapsulate e none d).1).isTunnel = false) →
     aT2 = aT ∧ bT2 = bT) :=
  ⟨pump_tun_mono engA engB fuel passes eA eB a2b b2a aT bT errs
      eA2 eB2 w1 w2 aT2 bT2 errs2 h,
   fun hnoA hnoB => pump_tun_eq engA engB fuel passes eA eB a2b b2a aT bT errs
      eA2 eB2 w1 w2 aT2 bT2 errs2 hnoA hnoB h⟩

/-- Witness for C8 at a concrete run with non-empty interface queues. -/
theorem pump_interface_append_only_witness :
    ((∃ xa, ([[7]] : Queue) = [[7]] ++ xa) ∧ (∃ xb, ([[8]] : Queue) = [[8]] ++ xb)) ∧
    ((∀ (e : Unit) (d : Bytes), ((doneEngine.decapsulate e none d).1).isTunnel = false) →
     (∀ (e : Unit) (d : Bytes), ((doneEngine.decapsulate e none d).1).isTunnel = false) →
     ([[7]] : Queue) = [[7]] ∧ ([[8]] : Queue) = [[8]]) :=
  pump_interface_append_only doneEngine doneEngine 1 2 () () [] [[0]] [[7]] [[8]] []
    () () [] [] [[7]] [[8]] [] rfl

/-- One drain step of a `pingEngine` peer holding exactly one datagram:
the datagram is consumed, one induced datagram is pushed to the outbound
queue, and the empty-datagram follow-up call immediately answers `Done`. -/
theorem ping_process_step (f : Nat) (who : String) (out tun : Queue)
    (errs : ErrLog) (did : Bool) :
    process_incoming pingEngine (f + 1) who () [[0]] out tun errs did =
      some ((), out ++ [[0]], tun, errs, true) := by
  simp [process_incoming, decapLoop, pingEngine]

/-- With zero sub-loop fuel a `pingEngine` drain cannot finish its chain. -/
theorem ping_process_zero (who : String) (out tun : Queue)
    (errs : ErrLog) (did : Bool) :
    process_incoming pingEngine 0 who () [[0]] out tun errs did = none := by
  simp [process_incoming, decapLoop, pingEngine]

/-- Counterexample to C2 as stated: `pingEngine` satisfies the claim's
precondition — every empty-datagram decapsulate chain ends at once (the
follow-up call returns `Done`), and no traffic is injected from outside —
yet starting from a single datagram in flight, `pump` never returns for any
amount of per-datagram fuel and any number of passes: each pass bounces the
datagram to the other peer and reports work done. -/
theorem pump_ping_pong_diverges :
    (∀ e : Unit, pingEngine.decapsulate e none [] = (.done, ())) ∧
    ∀ fuel passes,
      pump pingEngine pingEngine fuel passes () () [] [[0]] [] [] [] = none := by
  refine ⟨fun _ => rfl, ?_⟩
  intro fuel passes
  induction passes with
  | zero => rfl
  | succ n ih =>
    cases fuel with
    | zero => simp [pump, ping_process_zero]
    | succ f => simp [pump, ping_process_step, ih]

/-- Under a measure that strictly decreases on every `WriteToNetwork` answer
and never increases otherwise, the sub-loop finishes within `meas e` follow-up
calls, the measure never increases, and the outbound queue grows by at most
the measure decrease (plus one packet if the entering result itself is
network-bound). -/
theorem decapLoop_measure (eng : Engine E) (who : String) (meas : E → Nat)
    (h1 : ∀ e d, meas ((eng.decapsulate e none d).2) ≤ meas e)
    (h2 : ∀ e d p, (eng.decapsulate e none d).1 = .writeToNetwork p →
      meas ((eng.decapsulate e none d).2) < meas e)
    (fuel : Nat) (e : E) (res : TunnResult) (out tun : Queue) (errs : ErrLog)
    (hfuel : meas e < fuel) :
    ∃ e2 out2 tun2 errs2,
      decapLoop eng who fuel e res out tun errs = some (e2, out2, tun2, errs2) ∧
      meas e2 ≤ meas e ∧
      out2.length + meas e2 ≤
        out.length + meas e + (if res.isNet then 1 else 0) := by
  induction fuel generalizing e res out tun errs with
  | zero => omega
  | succ f ih =>
    cases res with
    | writeToNetwork pkt =>
      have hmd := h1 e []
      cases hd : (eng.decapsulate e none []).1 with
      | writeToNetwork p =>
        have hlt := h2 e [] p hd
        have hfuel2 : meas ((eng.decapsulate e none []).2) < f := by omega
        obtain ⟨e2, out2, tun2, errs2, hdl, hm, hb⟩ :=
          ih ((eng.decapsulate e none []).2) (eng.decapsulate e none []).1
            (out ++ [pkt]) tun errs hfuel2
        refine ⟨e2, out2, tun2, errs2, by simpa [decapLoop] using hdl, by omega, ?_⟩
        rw [hd] at hb
        simp only [TunnResult.isNet, List.length_append, List.length_cons,
          List.length_nil] at hb ⊢
        omega
      | writeToTunnelV4 inner s =>
        refine ⟨(eng.decapsulate e none []).2, out ++ [pkt], tun ++ [inner], errs,
          by simp [decapLoop, hd], hmd, ?_⟩
        simp only [TunnResult.isNet, List.length_append, List.length_cons,
          List.length_nil, if_true]
        omega
      | writeToTunnelV6 inner s =>
        refine ⟨(eng.decapsulate e none []).2, out ++ [pkt], tun ++ [inner], errs,
          by simp [decapLoop, hd], hmd, ?_⟩
        simp only [TunnResult.isNet, List.length_append, List.length_cons,
          List.length_nil, if_true]
        omega
      | done =>
        refine ⟨(eng.decapsulate e none []).2, out ++ [pkt], tun, errs,
          by simp [decapLoop, hd], hmd, ?_⟩
        simp only [TunnResult.isNet, List.length_append, List.length_cons,
          List.length_nil, if_true]
        omega
      | err er =>
        refine ⟨(eng.decapsulate e none []).2, out ++ [pkt], tun,
          errs ++ [(who, er)], by simp [decapLoop, hd], hmd, ?_⟩
        simp only [TunnResult.isNet, List.length_append, List.length_cons,
          List.length_nil, if_true]
        omega
    | writeToTunnelV4 inner s =>
      exact ⟨e, out, tun ++ [inner], errs, by simp [decapLoop], le_refl _, by simp⟩
    | writeToTunnelV6 inner s =>
      exact ⟨e, out, tun ++ [inner], errs, by simp [decapLoop], le_refl _, by simp⟩
    | done =>
      exact ⟨e, out, tun, errs, by simp [decapLoop], le_refl _, by simp⟩
    | err er =>
      exact ⟨e, out, tun, errs ++ [(who, er)], by simp [decapLoop], le_refl _, by simp⟩

/-- Under the same measure hypotheses, a whole drain finishes (given fuel
above the measure), the measure never increases, the outbound queue grows by
at most the measure decrease, `did_any` is as in `process_incoming_did_eq`,
and an empty inbound queue changes nothing. -/
theorem process_incoming_measure (eng : Engine E) (who : String) (meas : E → Nat)
    (h1 : ∀ e d, meas ((eng.decapsulate e none d).2) ≤ meas e)
    (h2 : ∀ e d p, (eng.decapsulate e none d).1 = .writeToNetwork p →
      meas ((eng.decapsulate e none d).2) < meas e)
    (fuel : Nat) (inc : Queue) (e : E) (out tun : Queue) (errs : ErrLog)
    (did : Bool) (hfuel : meas e < fuel) :
    ∃ e2 out2 tun2 errs2 did2,
      process_incoming eng fuel who e inc out tun errs did =
        some (e2, out2, tun2, errs2, did2) ∧
      meas e2 ≤ meas e ∧
      out2.length + meas e2 ≤ out.length + meas e ∧
      did2 = (did || !inc.isEmpty) ∧
      (inc = [] → (e2, out2, tun2, errs2, did2) = (e, out, tun, errs, did)) := by
  induction inc generalizing e out tun errs did with
  | nil =>
    exact ⟨e, out, tun, errs, did, rfl, le_refl _, by omega, by simp, fun _ => rfl⟩
  | cons dg rest ih =>
    have hmd := h1 e dg
    have hfuelx : meas ((eng.decapsulate e none dg).2) < fuel := by omega
    obtain ⟨e1, out1, tun1, errs1, hdl, hm1, hb1⟩ :=
      decapLoop_measure eng who meas h1 h2 fuel ((eng.decapsulate e none dg).2)
        ((eng.decapsulate e none dg).1) out tun errs hfuelx
    have hb1' : out1.length + meas e1 ≤ out.length + meas e := by
      cases hd : (eng.decapsulate e none dg).1 with
      | writeToNetwork p =>
        have hlt := h2 e dg p hd
        rw [hd] at hb1
        simp only [TunnResult.isNet, if_true] at hb1
        omega
      | writeToTunnelV4 inner s =>
        rw [hd] at hb1
        simp only [TunnResult.isNet, Bool.false_eq_true, if_false] at hb1
        omega
      | writeToTunnelV6 inner s =>
        rw [hd] at hb1
        simp only [TunnResult.isNet, Bool.false_eq_true, if_false] at hb1
        omega
      | done =>
        rw [hd] at hb1
        simp only [TunnResult.isNet, Bool.false_eq_true, if_false] at hb1
        omega
      | err er =>
        rw [hd] at hb1
        simp only [TunnResult.isNet, Bool.false_eq_true, if_false] at hb1
        omega
    have hfuel1 : meas e1 < fuel := by omega
    obtain ⟨e2, out2, tun2, errs2, did2, hrec, hm2, hb2, hdid2, _⟩ :=
      ih e1 out1 tun1 errs1 true hfuel1
    refine ⟨e2, out2, tun2, errs2, did2, ?_, by omega, by omega, ?_, by simp⟩
    · simp only [process_incoming, hdl]
      exact hrec
    · simp [hdid2]

/-- C2 (amended): `pump` drains A then B each pass and stops at the first
pass in which neither drain reports work.  Both wire queues are then empty,
and it reaches that state within `mA eA + mB eB + |a2b| + |b2a| + 1` passes,
provided each engine admits a measure that strictly decreases on every
`WriteToNetwork` answer of `decapsulate` and never increases otherwise (the
finite-handshake precondition; mere termination of each empty-datagram chain
is not enough, see `pump_ping_pong_diverges`). -/
theorem pump_converges_with_measure (engA engB : Engine E) (mA mB : E → Nat)
    (hA1 : ∀ e d, mA ((engA.decapsulate e none d).2) ≤ mA e)
    (hA2 : ∀ e d p, (engA.decapsulate e none d).1 = .writeToNetwork p →
      mA ((engA.decapsulate e none d).2) < mA e)
    (hB1 : ∀ e d, mB ((engB.decapsulate e none d).2) ≤ mB e)
    (hB2 : ∀ e d p, (engB.decapsulate e none d).1 = .writeToNetwork p →
      mB ((engB.decapsulate e none d).2) < mB e)
    (fuel passes : Nat) (eA eB : E) (a2b b2a aT bT : Queue) (errs : ErrLog)
    (hfuel : mA eA + mB eB < fuel)
    (hpasses : mA eA + mB eB + a2b.length + b2a.length < passes) :
    ∃ eA2 eB2 aT2 bT2 errs2,
      pump engA engB fuel passes eA eB a2b b2a aT bT errs =
        some (eA2, eB2, [], [], aT2, bT2, errs2) := by
  induction passes generalizing eA eB a2b b2a aT bT errs with
  | zero => omega
  | succ n ih =>
    obtain ⟨eA1, a2b1, aT1, errs1, p1, hA, hmA, hbA, hdidA, hnilA⟩ :=
      process_incoming_measure engA "A" mA hA1 hA2 fuel b2a eA a2b aT errs false
        (by omega)
    obtain ⟨eB1, b2a1, bT1, errs4, p2, hB, hmB, hbB, hdidB, hnilB⟩ :=
      process_incoming_measure engB "B" mB hB1 hB2 fuel a2b1 eB [] bT errs1 false
        (by omega)
    simp only [Bool.false_or] at hdidA hdidB
    simp only [List.length_nil] at hbB
    cases hp : p1 || p2 with
    | false =>
      have hp2 : p2 = false := by
        cases p2 with
        | false => rfl
        | true => simp at hp
      have ha2b1 : a2b1 = [] := by
        rw [hp2] at hdidB
        cases a2b1 with
        | nil => rfl
        | cons x xs => simp at hdidB
      have hq := hnilB ha2b1
      simp only [Prod.mk.injEq] at hq
      refine ⟨eA1, eB1, aT1, bT1, errs4, ?_⟩
      simp only [pump, hA]
      rw [hB]
      simp [hp, hq.2.1]
    | true =>
      have hlen : 1 ≤ b2a.length ∨
          (mA eA1 = mA eA ∧ a2b1 = a2b ∧ 1 ≤ a2b.length) := by
        cases hb2a : b2a with
        | cons d rest => exact Or.inl (by simp)
        | nil =>
          right
          rw [hb2a] at hnilA
          have hq := hnilA rfl
          simp only [Prod.mk.injEq] at hq
          obtain ⟨h1, h2, h3, h4, h5⟩ := hq
          have hp2 : p2 = true := by
            rw [h5] at hp
            simpa using hp
          have ha2b : a2b ≠ [] := by
            intro hnil
            rw [h2, hnil] at hdidB
            rw [hp2] at hdidB
            simp at hdidB
          refine ⟨by rw [h1], h2, ?_⟩
          cases a2b with
          | nil => exact absurd rfl ha2b
          | cons x xs => simp
      have hfuel1 : mA eA1 + mB eB1 < fuel := by omega
      have hpasses1 : mA eA1 + mB eB1 + ([] : Queue).length + b2a1.length < n := by
        simp only [List.length_nil]
        rcases hlen with hl | ⟨he, ha, hl⟩
        · omega
        · rw [ha] at hbA
          omega
      obtain ⟨eA2, eB2, aT2, bT2, errs5, hih⟩ :=
        ih eA1 eB1 [] b2a1 aT1 bT1 errs4 hfuel1 hpasses1
      refine ⟨eA2, eB2, aT2, bT2, errs5, ?_⟩
      simp only [pump, hA]
      rw [hB]
      simpa [hp] using hih

/-- Witness for C2 (amended) at a concrete engine (constant measure 0, never
answers `WriteToNetwork`) with one datagram initially in flight. -/
theorem pump_converges_with_measure_witness :
    ∃ (eA2 eB2 : Unit) (aT2 bT2 : Queue) (errs2 : ErrLog),
      pump doneEngine doneEngine 1 2 () () [] [[0]] [] [] [] =
        some (eA2, eB2, [], [], aT2, bT2, errs2) :=
  pump_converges_with_measure doneEngine doneEngine (fun _ => 0) (fun _ => 0)
    (fun _ _ => Nat.le_refl 0) (fun _ _ _ h => TunnResult.noConfusion h)
    (fun _ _ => Nat.le_refl 0) (fun _ _ _ h => TunnResult.noConfusion h)
    1 2 () () [] [[0]] [] [] [] (by decide) (by decide)

/-- The carry fold finishes below `2^16` whenever its fuel is at least its
argument (each running iteration strictly decreases the value). -/
theorem foldCarriesAux_lt (fuel s : Nat) (h : s ≤ fuel) :
    foldCarriesAux fuel s < 65536 := by
  induction fuel generalizing s with
  | zero => simp only [foldCarriesAux]; omega
  | succ f ih =>
    rw [foldCarriesAux]
    by_cases hs : s < 65536
    · simp [hs]
    · simp only [hs, if_false]
      exact ih _ (by omega)

/-- Folding carries preserves the value modulo `2^16 - 1`. -/
theorem foldCarriesAux_mod (fuel s : Nat) :
    foldCarriesAux fuel s % 65535 = s % 65535 := by
  induction fuel generalizing s with
  | zero => rfl
  | succ f ih =>
    rw [foldCarriesAux]
    by_cases hs : s < 65536
    · simp [hs]
    · simp only [hs, if_false]
      rw [ih]
      omega

/-- Folding carries keeps positive values positive. -/
theorem foldCarriesAux_pos (fuel s : Nat) (h : 0 < s) :
    0 < foldCarriesAux fuel s := by
  induction fuel generalizing s with
  | zero => simpa [foldCarriesAux] using h
  | succ f ih =>
    rw [foldCarriesAux]
    by_cases hs : s < 65536
    · simpa [hs] using h
    · simp only [hs, if_false]
      exact ih _ (by omega)

/-- Folding carries never increases the value. -/
theorem foldCarriesAux_le (fuel s : Nat) : foldCarriesAux fuel s ≤ s := by
  induction fuel generalizing s with
  | zero => simp [foldCarriesAux]
  | succ f ih =>
    rw [foldCarriesAux]
    by_cases hs : s < 65536
    · simp [hs]
    · simp only [hs, if_false]
      exact le_trans (ih _) (by omega)

/-- The completed carry fold is a 16-bit value. -/
theorem foldCarries_lt (s : Nat) : foldCarries s < 65536 :=
  foldCarriesAux_lt s s (Nat.le_refl s)

/-- The completed carry fold preserves the value modulo `2^16 - 1`. -/
theorem foldCarries_mod (s : Nat) : foldCarries s % 65535 = s % 65535 :=
  foldCarriesAux_mod s s

/-- The completed carry fold of a positive value is positive. -/
theorem foldCarries_pos (s : Nat) (h : 0 < s) : 0 < foldCarries s :=
  foldCarriesAux_pos s s h

/-- The completed carry fold never increases the value. -/
theorem foldCarries_le (s : Nat) : foldCarries s ≤ s := foldCarriesAux_le s s

/-- The carry fold of a positive multiple of `2^16 - 1` is exactly `0xFFFF`. -/
theorem foldCarries_of_multiple (s : Nat) (h0 : 0 < s) (hm : s % 65535 = 0) :
    foldCarries s = 65535 := by
  have h1 := foldCarries_lt s
  have h2 := foldCarries_mod s
  have h3 := foldCarries_pos s h0
  omega

/-- C7: for every 20-byte header with the checksum field (bytes 10–11)
zeroed, writing `ipv4_checksum` of the header back into bytes 10–11 makes
the validation sum — the one's-complement fold of all ten words including
the checksum field — equal `0xFFFF`, so its final complement is `0`. -/
theorem checksum_self_consistent
    (b0 b1 b2 b3 b4 b5 b6 b7 b8 b9 b12 b13 b14 b15 b16 b17 b18 b19 : Nat)
    (h0 : b0 < 256) (h1 : b1 < 256) (h2 : b2 < 256) (h3 : b3 < 256)
    (h4 : b4 < 256) (h5 : b5 < 256) (h6 : b6 < 256) (h7 : b7 < 256)
    (h8 : b8 < 256) (h9 : b9 < 256) (h12 : b12 < 256) (h13 : b13 < 256)
    (h14 : b14 < 256) (h15 : b15 < 256) (h16 : b16 < 256) (h17 : b17 < 256)
    (h18 : b18 < 256) (h19 : b19 < 256) :
    checksumValidationSum (setChecksum
      [b0, b1, b2, b3, b4, b5, b6, b7, b8, b9, 0, 0,
        b12, b13, b14, b15, b16, b17, b18, b19]
      (ipv4_checksum [b0, b1, b2, b3, b4, b5, b6, b7, b8, b9, 0, 0,
        b12, b13, b14, b15, b16, b17, b18, b19])) = 65535 ∧
    65535 - checksumValidationSum (setChecksum
      [b0, b1, b2, b3, b4, b5, b6, b7, b8, b9, 0, 0,
        b12, b13, b14, b15, b16, b17, b18, b19]
      (ipv4_checksum [b0, b1, b2, b3, b4, b5, b6, b7, b8, b9, 0, 0,
        b12, b13, b14, b15, b16, b17, b18, b19])) = 0 := by
  have main : checksumValidationSum (setChecksum
      [b0, b1, b2, b3, b4, b5, b6, b7, b8, b9, 0, 0,
        b12, b13, b14, b15, b16, b17, b18, b19]
      (ipv4_checksum [b0, b1, b2, b3, b4, b5, b6, b7, b8, b9, 0, 0,
        b12, b13, b14, b15, b16, b17, b18, b19])) = 65535 := by
    have hckeq : ipv4_checksum [b0, b1, b2, b3, b4, b5, b6, b7, b8, b9, 0, 0,
        b12, b13, b14, b15, b16, b17, b18, b19] =
        65535 - foldCarries ((256 * b0 + b1) + (256 * b2 + b3) + (256 * b4 + b5) +
          (256 * b6 + b7) + (256 * b8 + b9) + (256 * b12 + b13) + (256 * b14 + b15) +
          (256 * b16 + b17) + (256 * b18 + b19)) := by
      simp only [ipv4_checksum, show List.range 10 = [0,1,2,3,4,5,6,7,8,9] from rfl,
        List.foldl_cons, List.foldl_nil]
      norm_num [List.getD_cons_zero, List.getD_cons_succ]
      congr 1
      congr 1
      omega
    rw [hckeq]
    have hFle := foldCarries_le ((256 * b0 + b1) + (256 * b2 + b3) + (256 * b4 + b5) +
      (256 * b6 + b7) + (256 * b8 + b9) + (256 * b12 + b13) + (256 * b14 + b15) +
      (256 * b16 + b17) + (256 * b18 + b19))
    have hFlt := foldCarries_lt ((256 * b0 + b1) + (256 * b2 + b3) + (256 * b4 + b5) +
      (256 * b6 + b7) + (256 * b8 + b9) + (256 * b12 + b13) + (256 * b14 + b15) +
      (256 * b16 + b17) + (256 * b18 + b19))
    have hFmod := foldCarries_mod ((256 * b0 + b1) + (256 * b2 + b3) + (256 * b4 + b5) +
      (256 * b6 + b7) + (256 * b8 + b9) + (256 * b12 + b13) + (256 * b14 + b15) +
      (256 * b16 + b17) + (256 * b18 + b19))
    generalize hF : foldCarries ((256 * b0 + b1) + (256 * b2 + b3) + (256 * b4 + b5) +
      (256 * b6 + b7) + (256 * b8 + b9) + (256 * b12 + b13) + (256 * b14 + b15) +
      (256 * b16 + b17) + (256 * b18 + b19)) = F
    rw [hF] at hFle hFlt hFmod
    have hval : ∀ x y, x < 256 → y < 256 →
        checksumValidationSum [b0, b1, b2, b3, b4, b5, b6, b7, b8, b9, x, y,
          b12, b13, b14, b15, b16, b17, b18, b19] =
        foldCarries ((256 * b0 + b1) + (256 * b2 + b3) + (256 * b4 + b5) +
          (256 * b6 + b7) + (256 * b8 + b9) + (256 * b12 + b13) + (256 * b14 + b15) +
          (256 * b16 + b17) + (256 * b18 + b19) + (256 * x + y)) := by
      intro x y hx hy
      simp only [checksumValidationSum,
        show List.range 10 = [0,1,2,3,4,5,6,7,8,9] from rfl,
        List.foldl_cons, List.foldl_nil]
      norm_num [List.getD_cons_zero, List.getD_cons_succ]
      congr 1
      omega
    have hsetr : setChecksum
        [b0, b1, b2, b3, b4, b5, b6, b7, b8, b9, 0, 0,
          b12, b13, b14, b15, b16, b17, b18, b19] (65535 - F) =
        [b0, b1, b2, b3, b4, b5, b6, b7, b8, b9,
          (65535 - F) / 256 % 256, (65535 - F) % 256,
          b12, b13, b14, b15, b16, b17, b18, b19] := rfl
    rw [hsetr, hval ((65535 - F) / 256 % 256) ((65535 - F) % 256) (by omega) (by omega)]
    have hword : 256 * ((65535 - F) / 256 % 256) + (65535 - F) % 256 = 65535 - F := by
      omega
    rw [hword]
    clear hval hckeq hsetr hword
    apply foldCarries_of_multiple
    · omega
    · omega
  exact ⟨main, by rw [main]⟩

/-- Witness for C7 at a concrete header (the zero-checksum header of the
scenario's test packet). -/
theorem checksum_self_consistent_witness :
    checksumValidationSum (setChecksum
      [69, 0, 0, 48, 0, 0, 64, 0, 64, 17, 0, 0, 10, 0, 0, 1, 10, 0, 0, 2]
      (ipv4_checksum
        [69, 0, 0, 48, 0, 0, 64, 0, 64, 17, 0, 0, 10, 0, 0, 1, 10, 0, 0, 2])) =
      65535 ∧
    65535 - checksumValidationSum (setChecksum
      [69, 0, 0, 48, 0, 0, 64, 0, 64, 17, 0, 0, 10, 0, 0, 1, 10, 0, 0, 2]
      (ipv4_checksum
        [69, 0, 0, 48, 0, 0, 64, 0, 64, 17, 0, 0, 10, 0, 0, 1, 10, 0, 0, 2])) =
      0 :=
  checksum_self_consistent 69 0 0 48 0 0 64 0 64 17 10 0 0 1 10 0 0 2
    (by decide) (by decide) (by decide) (by decide) (by decide) (by decide)
    (by decide) (by decide) (by decide) (by decide) (by decide) (by decide)
    (by decide) (by decide) (by decide) (by decide) (by decide) (by decide)

/-- Byte 2 of the built packet: high byte of the truncated total length. -/
theorem build_getD_2 (src dst : Ipv4Addr) (sp dp : Nat) (p : Bytes) :
    (build_ipv4_udp src dst sp dp p).getD 2 0 = (28 + p.length) / 256 % 256 := rfl

/-- Byte 3 of the built packet: low byte of the truncated total length. -/
theorem build_getD_3 (src dst : Ipv4Addr) (sp dp : Nat) (p : Bytes) :
    (build_ipv4_udp src dst sp dp p).getD 3 0 = (28 + p.length) % 256 := rfl

/-- Byte 24 of the built packet: high byte of the truncated UDP length. -/
theorem build_getD_24 (src dst : Ipv4Addr) (sp dp : Nat) (p : Bytes) :
    (build_ipv4_udp src dst sp dp p).getD 24 0 = (8 + p.length) / 256 % 256 := rfl

/-- Byte 25 of the built packet: low byte of the truncated UDP length. -/
theorem build_getD_25 (src dst : Ipv4Addr) (sp dp : Nat) (p : Bytes) :
    (build_ipv4_udp src dst sp dp p).getD 25 0 = (8 + p.length) % 256 := rfl

/-- The built packet physically holds header plus payload in full. -/
theorem build_length (src dst : Ipv4Addr) (sp dp : Nat) (p : Bytes) :
    (build_ipv4_udp src dst sp dp p).length = 28 + p.length := by
  simp [build_ipv4_udp, toBe16, Ipv4Addr.octets]
  omega

/-- The payload is the byte-identical tail of the built packet. -/
theorem build_drop_28 (src dst : Ipv4Addr) (sp dp : Nat) (p : Bytes) :
    (build_ipv4_udp src dst sp dp p).drop 28 = p := rfl

/-- The big-endian word at bytes 2–3 is the total length modulo `2^16`. -/
theorem build_total_word (src dst : Ipv4Addr) (sp dp : Nat) (p : Bytes) :
    256 * ((build_ipv4_udp src dst sp dp p).getD 2 0) +
      (build_ipv4_udp src dst sp dp p).getD 3 0 = (28 + p.length) % 65536 := by
  rw [build_getD_2, build_getD_3]
  omega

/-- The big-endian word at bytes 24–25 is the UDP length modulo `2^16`. -/
theorem build_udp_word (src dst : Ipv4Addr) (sp dp : Nat) (p : Bytes) :
    256 * ((build_ipv4_udp src dst sp dp p).getD 24 0) +
      (build_ipv4_udp src dst sp dp p).getD 25 0 = (8 + p.length) % 65536 := by
  rw [build_getD_24, build_getD_25]
  omega

/-- Counterexample to C6 as stated: at a 65508-byte payload the encoded
total-length word is `(28 + 65508) % 2^16 = 0`, not `28 + len(payload)`. -/
theorem build_total_len_overflow :
    ¬ (256 * ((build_ipv4_udp ⟨10, 0, 0, 1⟩ ⟨10, 0, 0, 2⟩ 12345 54321
        (List.replicate 65508 0)).getD 2 0) +
      (build_ipv4_udp ⟨10, 0, 0, 1⟩ ⟨10, 0, 0, 2⟩ 12345 54321
        (List.replicate 65508 0)).getD 3 0 =
      28 + (List.replicate 65508 (0 : Nat)).length) := by
  rw [build_total_word]
  simp only [List.length_replicate]
  omega

/-- C6 (amended): for every address, port, and payload of at most 65507
bytes, the builder is a pure function whose total-length word (bytes 2–3) is
`28 + len(payload)`, whose UDP-length word (bytes 24–25) is
`8 + len(payload)`, whose output holds exactly `28 + len(payload)` bytes,
and whose last `len(payload)` bytes are the payload unmodified. -/
theorem build_ipv4_udp_fields (src dst : Ipv4Addr) (sp dp : Nat) (p : Bytes)
    (hlen : p.length ≤ 65507) :
    256 * ((build_ipv4_udp src dst sp dp p).getD 2 0) +
      (build_ipv4_udp src dst sp dp p).getD 3 0 = 28 + p.length ∧
    256 * ((build_ipv4_udp src dst sp dp p).getD 24 0) +
      (build_ipv4_udp src dst sp dp p).getD 25 0 = 8 + p.length ∧
    (build_ipv4_udp src dst sp dp p).length = 28 + p.length ∧
    (build_ipv4_udp src dst sp dp p).drop 28 = p := by
  refine ⟨?_, ?_, build_length src dst sp dp p, build_drop_28 src dst sp dp p⟩
  · rw [build_total_word]
    omega
  · rw [build_udp_word]
    omega

/-- Witness for C6 (amended) at the scenario's addresses, ports, and a
two-byte payload. -/
theorem build_ipv4_udp_fields_witness :
    256 * ((build_ipv4_udp ⟨10, 0, 0, 1⟩ ⟨10, 0, 0, 2⟩ 12345 54321
        [104, 105]).getD 2 0) +
      (build_ipv4_udp ⟨10, 0, 0, 1⟩ ⟨10, 0, 0, 2⟩ 12345 54321
        [104, 105]).getD 3 0 = 28 + ([104, 105] : Bytes).length ∧
    256 * ((build_ipv4_udp ⟨10, 0, 0, 1⟩ ⟨10, 0, 0, 2⟩ 12345 54321
        [104, 105]).getD 24 0) +
      (build_ipv4_udp ⟨10, 0, 0, 1⟩ ⟨10, 0, 0, 2⟩ 12345 54321
        [104, 105]).getD 25 0 = 8 + ([104, 105] : Bytes).length ∧
    (build_ipv4_udp ⟨10, 0, 0, 1⟩ ⟨10, 0, 0, 2⟩ 12345 54321
      [104, 105]).length = 28 + ([104, 105] : Bytes).length ∧
    (build_ipv4_udp ⟨10, 0, 0, 1⟩ ⟨10, 0, 0, 2⟩ 12345 54321
      [104, 105]).drop 28 = ([104, 105] : Bytes) :=
  build_ipv4_udp_fields ⟨10, 0, 0, 1⟩ ⟨10, 0, 0, 2⟩ 12345 54321 [104, 105]
    (by decide)

/-- C10: for payloads longer than 65507 bytes the builder neither fails nor
saturates: the total-length and UDP-length words wrap modulo `2^16` while
the returned buffer still physically contains all `28 + len(payload)` bytes,
so the encoded total length disagrees with the actual packet size. -/
theorem build_ipv4_udp_truncates (src dst : Ipv4Addr) (sp dp : Nat) (p : Bytes)
    (hlen : 65507 < p.length) :
    256 * ((build_ipv4_udp src dst sp dp p).getD 2 0) +
      (build_ipv4_udp src dst sp dp p).getD 3 0 = (28 + p.length) % 65536 ∧
    256 * ((build_ipv4_udp src dst sp dp p).getD 24 0) +
      (build_ipv4_udp src dst sp dp p).getD 25 0 = (8 + p.length) % 65536 ∧
    (build_ipv4_udp src dst sp dp p).length = 28 + p.length ∧
    256 * ((build_ipv4_udp src dst sp dp p).getD 2 0) +
      (build_ipv4_udp src dst sp dp p).getD 3 0 ≠
      (build_ipv4_udp src dst sp dp p).length := by
  refine ⟨build_total_word src dst sp dp p, build_udp_word src dst sp dp p,
    build_length src dst sp dp p, ?_⟩
  rw [build_total_word, build_length]
  omega

/-- Witness for C10 at a 65508-byte payload. -/
theorem build_ipv4_udp_truncates_witness :
    256 * ((build_ipv4_udp ⟨10, 0, 0, 1⟩ ⟨10, 0, 0, 2⟩ 12345 54321
        (List.replicate 65508 0)).getD 2 0) +
      (build_ipv4_udp ⟨10, 0, 0, 1⟩ ⟨10, 0, 0, 2⟩ 12345 54321
        (List.replicate 65508 0)).getD 3 0 =
      (28 + (List.replicate 65508 (0 : Nat)).length) % 65536 ∧
    256 * ((build_ipv4_udp ⟨10, 0, 0, 1⟩ ⟨10, 0, 0, 2⟩ 12345 54321
        (List.replicate 65508 0)).getD 24 0) +
      (build_ipv4_udp ⟨10, 0, 0, 1⟩ ⟨10, 0, 0, 2⟩ 12345 54321
        (List.replicate 65508 0)).getD 25 0 =
      (8 + (List.replicate 65508 (0 : Nat)).length) % 65536 ∧
    (build_ipv4_udp ⟨10, 0, 0, 1⟩ ⟨10, 0, 0, 2⟩ 12345 54321
      (List.replicate 65508 0)).length = 28 + (List.replicate 65508 (0 : Nat)).length ∧
    256 * ((build_ipv4_udp ⟨10, 0, 0, 1⟩ ⟨10, 0, 0, 2⟩ 12345 54321
        (List.replicate 65508 0)).getD 2 0) +
      (build_ipv4_udp ⟨10, 0, 0, 1⟩ ⟨10, 0, 0, 2⟩ 12345 54321
        (List.replicate 65508 0)).getD 3 0 ≠
      (build_ipv4_udp ⟨10, 0, 0, 1⟩ ⟨10, 0, 0, 2⟩ 12345 54321
        (List.replicate 65508 0)).length :=
  build_ipv4_udp_truncates ⟨10, 0, 0, 1⟩ ⟨10, 0, 0, 2⟩ 12345 54321
    (List.replicate 65508 0) (by simp only [List.length_replicate]; omega)

end Claims
